import Mathlib

/-!
Shallow embedding of selected foundry components, checked against the
natural-language specification:

* the bounded unsigned-integer fuzz value tree
  (`crates/evm/fuzz/src/strategies/uint.rs`);
* the prank cheatcode state machine (`crates/cheatcodes/src/evm/prank.rs`);
* the inspector stack and its inner-context mechanism
  (`crates/evm/evm/src/inspectors/stack.rs`) and the log collector
  (`crates/evm/evm/src/inspectors/logs.rs`);
* the invariant fuzz executor (`evm/src/invariant_fuzz.rs`).

Machine integers (`U256`) are modelled as `Nat` with explicit reduction
modulo `2 ^ 256` exactly where the Rust arithmetic wraps; external
collaborators (the EVM backend, the proptest runner, ABI coding) are
parameters of the model.
-/

/-! ## U256 arithmetic

`alloy_primitives::U256` arithmetic wraps modulo `2 ^ 256` (release
semantics, relied upon by the repository's own
`test_uint_tree_complicate_max`). We model values as naturals below
`U256_MOD` and make the wrap explicit.
-/

def U256_MOD : ℕ := 2 ^ 256

def U256_MAX : ℕ := U256_MOD - 1

/-- Wrapping addition on `U256`. -/
def wrapAdd (a b : ℕ) : ℕ := (a + b) % U256_MOD

/-- Wrapping subtraction on `U256` (two's-complement style wrap-around). -/
def wrapSub (a b : ℕ) : ℕ := (a + (U256_MOD - b % U256_MOD)) % U256_MOD

/-- Saturating addition on `U256` (`U256::saturating_add`). -/
def satAdd (a b : ℕ) : ℕ := min (a + b) U256_MAX

/-- Saturating subtraction on `U256` (`U256::saturating_sub`). -/
def satSub (a b : ℕ) : ℕ := a - b

theorem wrapSub_of_le {a b : ℕ} (hba : b ≤ a) (ha : a < U256_MOD) :
    wrapSub a b = a - b := by
  have hb : b < U256_MOD := lt_of_le_of_lt hba ha
  have hbmod : b % U256_MOD = b := Nat.mod_eq_of_lt hb
  unfold wrapSub
  rw [hbmod]
  have h1 : a + (U256_MOD - b) = U256_MOD + (a - b) := by omega
  rw [h1, Nat.add_mod_left]
  exact Nat.mod_eq_of_lt (by omega)

theorem wrapAdd_of_lt {a b : ℕ} (h : a + b < U256_MOD) :
    wrapAdd a b = a + b := Nat.mod_eq_of_lt h

/-! ## Uint value tree (`crates/evm/fuzz/src/strategies/uint.rs`)

The tree fields `lo`, `curr`, `hi`, `min_bound`, `max_bound` are `U256`
values; `fixed` marks a tree that can be neither simplified nor
complexified. Methods return the updated tree together with the `bool`
the Rust methods return.
-/

structure UintValueTree where
  lo : ℕ
  curr : ℕ
  hi : ℕ
  fixed : Bool
  min_bound : ℕ
  max_bound : ℕ
  deriving Repr, DecidableEq

namespace UintValueTree

/-- `UintValueTree::new(start, fixed, min_bound, max_bound)`:
`lo = 0`, `curr = hi = start`. -/
def new (start : ℕ) (fixed : Bool) (min_bound max_bound : ℕ) : UintValueTree :=
  { lo := 0, curr := start, hi := start, fixed := fixed,
    min_bound := min_bound, max_bound := max_bound }

/-- `UintValueTree::reposition`: move `curr` to the midpoint
`lo + (hi - lo) / 2` (wrapping `U256` arithmetic), reporting whether
`curr` changed. -/
def reposition (t : UintValueTree) : UintValueTree × Bool :=
  let interval := wrapSub t.hi t.lo
  let new_mid := wrapAdd t.lo (interval / 2)
  if new_mid = t.curr then (t, false)
  else ({ t with curr := new_mid }, true)

/-- `ValueTree::simplify`: no-op when `fixed` or `hi ≤ lo`; otherwise set
`hi := curr` and reposition. -/
def simplify (t : UintValueTree) : UintValueTree × Bool :=
  if t.fixed || decide (t.hi ≤ t.lo) then (t, false)
  else reposition { t with hi := t.curr }

/-- `ValueTree::complicate`: no-op when `fixed` or `hi ≤ lo`; otherwise set
`lo := curr + 1` (wrapping) and reposition. -/
def complicate (t : UintValueTree) : UintValueTree × Bool :=
  if t.fixed || decide (t.hi ≤ t.lo) then (t, false)
  else reposition { t with lo := wrapAdd t.curr 1 }

/-- `ValueTree::current`: `curr.clamp(min_bound, max_bound)`
(for `min_bound ≤ max_bound`). -/
def current (t : UintValueTree) : ℕ :=
  max t.min_bound (min t.curr t.max_bound)

/-- Idealized `reposition` over unbounded naturals (no wrap). -/
def repositionE (t : UintValueTree) : UintValueTree × Bool :=
  let interval := t.hi - t.lo
  let new_mid := t.lo + interval / 2
  if new_mid = t.curr then (t, false)
  else ({ t with curr := new_mid }, true)

/-- Idealized `simplify` over unbounded naturals. -/
def simplifyE (t : UintValueTree) : UintValueTree × Bool :=
  if t.fixed || decide (t.hi ≤ t.lo) then (t, false)
  else repositionE { t with hi := t.curr }

/-- Idealized `complicate` over unbounded naturals. -/
def complicateE (t : UintValueTree) : UintValueTree × Bool :=
  if t.fixed || decide (t.hi ≤ t.lo) then (t, false)
  else repositionE { t with lo := t.curr + 1 }

/-- All stored words are genuine `U256` values. -/
def wf (t : UintValueTree) : Prop :=
  t.lo < U256_MOD ∧ t.curr < U256_MOD ∧ t.hi < U256_MOD

/-- The spec's value-tree ordering invariant. -/
def treeInv (t : UintValueTree) : Prop :=
  t.lo ≤ t.curr ∧ t.curr ≤ t.hi

instance (t : UintValueTree) : Decidable (wf t) := by
  unfold wf; infer_instance

instance (t : UintValueTree) : Decidable (treeInv t) := by
  unfold treeInv; infer_instance

theorem new_treeInv (start : ℕ) (fixed : Bool) (mb xb : ℕ) :
    treeInv (new start fixed mb xb) :=
  ⟨Nat.zero_le _, le_refl _⟩

theorem simplify_preserves (t : UintValueTree) (hwf : wf t) (hinv : treeInv t) :
    treeInv (simplify t).1 ∧ wf (simplify t).1 := by
  obtain ⟨hlo, hcurr, hhi⟩ := hwf
  obtain ⟨h1, h2⟩ := hinv
  unfold simplify
  by_cases hg : t.fixed = true ∨ t.hi ≤ t.lo
  · have : (t.fixed || decide (t.hi ≤ t.lo)) = true := by
      rcases hg with h | h
      · simp [h]
      · simp [h]
    rw [this]
    exact ⟨⟨h1, h2⟩, hlo, hcurr, hhi⟩
  · push_neg at hg
    obtain ⟨hf, hlolt⟩ := hg
    have : (t.fixed || decide (t.hi ≤ t.lo)) = false := by
      simp [hf, not_le.mpr hlolt]
    rw [this]
    simp only [Bool.false_eq_true, if_false]
    -- after `hi := curr`, reposition with lo ≤ curr
    unfold reposition
    simp only
    have hsub : wrapSub t.curr t.lo = t.curr - t.lo := wrapSub_of_le h1 hcurr
    have hmid_le : t.lo + (t.curr - t.lo) / 2 ≤ t.curr := by omega
    have hadd : wrapAdd t.lo ((wrapSub t.curr t.lo) / 2) =
        t.lo + (t.curr - t.lo) / 2 := by
      rw [hsub]; exact wrapAdd_of_lt (lt_of_le_of_lt hmid_le hcurr)
    by_cases hc : wrapAdd t.lo (wrapSub t.curr t.lo / 2) = t.curr
    · rw [if_pos hc]
      exact ⟨⟨h1, le_refl _⟩, hlo, hcurr, hcurr⟩
    · rw [if_neg hc]
      dsimp only [treeInv, wf]
      rw [hadd]
      refine ⟨⟨?_, hmid_le⟩, hlo, ?_, hcurr⟩
      · omega
      · exact lt_of_le_of_lt hmid_le hcurr

theorem complicate_preserves (t : UintValueTree) (hwf : wf t) (hinv : treeInv t)
    (hlt : t.curr < t.hi) :
    treeInv (complicate t).1 ∧ wf (complicate t).1 := by
  obtain ⟨hlo, hcurr, hhi⟩ := hwf
  obtain ⟨h1, h2⟩ := hinv
  unfold complicate
  by_cases hf : t.fixed = true
  · simp only [hf, Bool.true_or, if_true]
    exact ⟨⟨h1, h2⟩, hlo, hcurr, hhi⟩
  · have hg : (t.fixed || decide (t.hi ≤ t.lo)) = false := by
      simp [hf, not_le.mpr (lt_of_le_of_lt h1 hlt)]
    rw [hg]
    simp only [Bool.false_eq_true, if_false]
    unfold reposition
    simp only
    have hsucc : wrapAdd t.curr 1 = t.curr + 1 := wrapAdd_of_lt (by omega)
    have hsub : wrapSub t.hi (wrapAdd t.curr 1) = t.hi - (t.curr + 1) := by
      rw [hsucc]; exact wrapSub_of_le (by omega) hhi
    have hmid_le : (t.curr + 1) + (t.hi - (t.curr + 1)) / 2 ≤ t.hi := by omega
    have hadd : wrapAdd (wrapAdd t.curr 1) (wrapSub t.hi (wrapAdd t.curr 1) / 2) =
        (t.curr + 1) + (t.hi - (t.curr + 1)) / 2 := by
      rw [hsub, hsucc]; exact wrapAdd_of_lt (lt_of_le_of_lt hmid_le hhi)
    by_cases hc : wrapAdd (wrapAdd t.curr 1)
        (wrapSub t.hi (wrapAdd t.curr 1) / 2) = t.curr
    · exfalso
      rw [hadd] at hc; omega
    · rw [if_neg hc]
      dsimp only [treeInv, wf]
      rw [hadd, hsucc]
      refine ⟨⟨by omega, hmid_le⟩, by omega, ?_, hhi⟩
      exact lt_of_le_of_lt hmid_le hhi

/-- `reposition` agrees with the unbounded-arithmetic `repositionE` whenever
`lo ≤ hi < 2^256`. -/
theorem reposition_eq_repositionE (t : UintValueTree)
    (hle : t.lo ≤ t.hi) (hhi : t.hi < U256_MOD) :
    reposition t = repositionE t := by
  have hsub : wrapSub t.hi t.lo = t.hi - t.lo := wrapSub_of_le hle hhi
  have hadd : wrapAdd t.lo ((t.hi - t.lo) / 2) = t.lo + (t.hi - t.lo) / 2 :=
    wrapAdd_of_lt (by omega)
  simp only [reposition, repositionE, hsub, hadd]

end UintValueTree

open UintValueTree in
/-- C7 (counterexample). The claim says `lo ≤ curr ≤ hi` is preserved by
every sequence of `simplify`/`complicate` calls from every starting value.
It fails at the concrete tree `new 1 false 0 1` (`lo = 0`, `curr = hi = 1`):
a single `complicate()` sets `lo := 2`, the interval `hi - lo` wraps, and
`curr` becomes `2^255 + 1 > hi`. -/
theorem uint_tree_complicate_breaks_inv :
    treeInv (new 1 false 0 1) ∧
    ¬ treeInv ((new 1 false 0 1).complicate).1 := by
  constructor
  · exact ⟨by decide, by decide⟩
  · intro h
    have hcurr : ((new 1 false 0 1).complicate).1.curr = 2 ^ 255 + 1 := by decide
    have hhi : ((new 1 false 0 1).complicate).1.hi = 1 := by decide
    have := h.2
    rw [hcurr, hhi] at this
    omega

open UintValueTree in
/-- C7 (amended). Every `UintValueTree` satisfies `lo ≤ curr ≤ hi` at
creation; the invariant (together with well-formedness of the `U256`
fields) is preserved by every `simplify()` call, and by a `complicate()`
call whenever `curr < hi` holds at the time of the call — but a
`complicate()` call with `curr = hi` can wrap and violate `curr ≤ hi`. -/
theorem uint_tree_inv_preserved :
    (∀ start fixed mb xb, treeInv (new start fixed mb xb)) ∧
    (∀ t : UintValueTree, wf t → treeInv t →
      treeInv (simplify t).1 ∧ wf (simplify t).1) ∧
    (∀ t : UintValueTree, wf t → treeInv t → t.curr < t.hi →
      treeInv (complicate t).1 ∧ wf (complicate t).1) :=
  ⟨new_treeInv, simplify_preserves, complicate_preserves⟩

open UintValueTree in
/-- Witness for C7 (amended): the invariant holds after one `simplify` and
one guarded `complicate` on a concrete tree. -/
theorem uint_tree_inv_preserved_witness :
    treeInv ((new 10 false 0 10).simplify).1 ∧
    treeInv ((UintValueTree.mk 0 3 10 false 0 10).complicate).1 :=
  ⟨(uint_tree_inv_preserved.2.1 (new 10 false 0 10)
      ⟨by decide, by decide, by decide⟩ ⟨by decide, by decide⟩).1,
   (uint_tree_inv_preserved.2.2 (UintValueTree.mk 0 3 10 false 0 10)
      ⟨by decide, by decide, by decide⟩ ⟨by decide, by decide⟩ (by decide)).1⟩

open UintValueTree in
/-- C8 (counterexample). The claim says all 256-bit arithmetic in the
shrink/grow midpoint computation is overflow-free. At the state the
repository's own test `test_uint_tree_complicate_max` builds
(`new U256::MAX false U256::MAX U256::MIN`), `complicate()` computes
`lo := curr + 1`, which wraps modulo `2^256` to `0` (the exact value would
be `2^256`), so `complicate` disagrees with its unbounded-arithmetic
counterpart. -/
theorem uint_tree_complicate_wraps :
    ((new U256_MAX false U256_MAX 0).complicate).1.lo = 0 ∧
    (new U256_MAX false U256_MAX 0).curr + 1 = U256_MOD ∧
    (new U256_MAX false U256_MAX 0).complicate ≠
      (new U256_MAX false U256_MAX 0).complicateE := by
  refine ⟨by decide, by decide, ?_⟩
  intro h
  have h1 : ((new U256_MAX false U256_MAX 0).complicate).1.lo = 0 := by decide
  have h2 : ((new U256_MAX false U256_MAX 0).complicateE).1.lo = U256_MOD := by
    decide
  rw [h] at h1
  rw [h1] at h2
  exact absurd h2.symm (by decide)

open UintValueTree in
/-- C8 (amended). The shrink/grow midpoint arithmetic is overflow-free —
it agrees with unbounded-integer arithmetic — for `simplify()` whenever
`lo ≤ curr ≤ hi < 2^256`, and for `complicate()` whenever additionally
`curr < hi`; the edge-candidate generator's `saturating_add` /
`saturating_sub` never leave the `U256` domain. But `complicate()`'s
lower-bound update `lo := curr + 1` wraps modulo `2^256` when
`curr = 2^256 - 1` (as the repository's own test
`test_uint_tree_complicate_max` asserts: `lo` becomes `0`). -/
theorem uint_tree_midpoint_no_overflow :
    (∀ t : UintValueTree, wf t → treeInv t → simplify t = simplifyE t) ∧
    (∀ t : UintValueTree, wf t → treeInv t → t.curr < t.hi →
      complicate t = complicateE t) ∧
    (∀ a b : ℕ, satAdd a b < U256_MOD) ∧
    (∀ a b : ℕ, a < U256_MOD → satSub a b < U256_MOD) := by
  refine ⟨?_, ?_, ?_, ?_⟩
  · intro t hwf hinv
    obtain ⟨hlo, hcurr, hhi⟩ := hwf
    unfold simplify simplifyE
    by_cases hg : (t.fixed || decide (t.hi ≤ t.lo)) = true
    · rw [hg]; rfl
    · rw [Bool.not_eq_true] at hg
      rw [hg]
      simp only [Bool.false_eq_true, if_false]
      exact reposition_eq_repositionE _ hinv.1 hcurr
  · intro t hwf hinv hlt
    obtain ⟨hlo, hcurr, hhi⟩ := hwf
    have hsucc : wrapAdd t.curr 1 = t.curr + 1 := wrapAdd_of_lt (by omega)
    unfold complicate complicateE
    by_cases hg : (t.fixed || decide (t.hi ≤ t.lo)) = true
    · rw [hg]; rfl
    · rw [Bool.not_eq_true] at hg
      rw [hg]
      simp only [Bool.false_eq_true, if_false, hsucc]
      exact reposition_eq_repositionE _ (by dsimp only; omega) hhi
  · intro a b
    have : satAdd a b ≤ U256_MAX := min_le_right _ _
    unfold U256_MAX at this
    have h2 : 0 < U256_MOD := by unfold U256_MOD; positivity
    omega
  · intro a b ha
    exact lt_of_le_of_lt (Nat.sub_le a b) ha

open UintValueTree in
/-- Witness for C8 (amended): agreement on concrete trees. -/
theorem uint_tree_midpoint_no_overflow_witness :
    simplify (new 10 false 0 10) = simplifyE (new 10 false 0 10) ∧
    complicate (UintValueTree.mk 0 3 10 false 0 10) =
      complicateE (UintValueTree.mk 0 3 10 false 0 10) ∧
    satAdd 250 3 < U256_MOD ∧ satSub 255 3 < U256_MOD :=
  ⟨uint_tree_midpoint_no_overflow.1 (new 10 false 0 10)
      ⟨by decide, by decide, by decide⟩ ⟨by decide, by decide⟩,
   uint_tree_midpoint_no_overflow.2.1 (UintValueTree.mk 0 3 10 false 0 10)
      ⟨by decide, by decide, by decide⟩ ⟨by decide, by decide⟩ (by decide),
   uint_tree_midpoint_no_overflow.2.2.1 250 3,
   uint_tree_midpoint_no_overflow.2.2.2 255 3 (by decide)⟩

/-! ## Prank cheatcode state machine (`crates/cheatcodes/src/evm/prank.rs`)

Addresses are modelled as naturals. Of the `Cheatcodes` inspector state we
model the fields the prank cheatcodes read or write (`prank`,
`broadcast`), plus a representative `labels` field standing in for the
remaining per-test state, which these cheatcodes never touch. The
`broadcast` payload is irrelevant here (only `is_none` is consulted), so
it is collapsed to an opaque natural.
-/

abbrev Addr := ℕ

structure Prank where
  /-- Address of the contract that initiated the prank. -/
  prank_caller : Addr
  /-- Address of `tx.origin` when the prank was initiated. -/
  prank_origin : Addr
  /-- The address to assign to `msg.sender`. -/
  new_caller : Addr
  /-- The address to assign to `tx.origin`. -/
  new_origin : Option Addr
  /-- The depth at which the prank was called. -/
  depth : ℕ
  /-- Whether the prank stops by itself after the next call. -/
  single_call : Bool
  /-- Whether the prank should be applied to delegate calls. -/
  delegate_call : Bool
  /-- Whether the prank has been used yet (false if unused). -/
  used : Bool
  deriving Repr, DecidableEq

namespace Prank

/-- `Prank::new`: a fresh prank always starts with `used = false`. -/
def new (prank_caller prank_origin new_caller : Addr) (new_origin : Option Addr)
    (depth : ℕ) (single_call delegate_call : Bool) : Prank :=
  { prank_caller, prank_origin, new_caller, new_origin, depth,
    single_call, delegate_call, used := false }

/-- `Prank::first_time_applied`: returns the updated prank iff `used` was
false. -/
def first_time_applied (p : Prank) : Option Prank :=
  if p.used then none else some { p with used := true }

end Prank

/-- The cheatcode state fields relevant to the prank cheatcodes. -/
structure CheatcodesState where
  prank : Option Prank
  broadcast : Option ℕ
  labels : List (Addr × ℕ)
  deriving Repr, DecidableEq

/-- The call context a stateful cheatcode receives: the immediate caller,
`tx.origin` (`ecx.env.tx.caller`), and the journaled-state depth. -/
structure CheatsCtxt where
  caller : Addr
  tx_caller : Addr
  depth : ℕ
  state : CheatcodesState
  deriving Repr, DecidableEq

/-- The `prank` helper shared by `vm.prank` / `vm.startPrank`
(`crates/cheatcodes/src/evm/prank.rs`, `fn prank`). Returns the state
after the call together with the cheatcode result: `ensure!` failures
return early with an error and leave the state untouched; on success the
fresh prank is stored.-/
def prankCheat (ccx : CheatsCtxt) (new_caller : Addr) (new_origin : Option Addr)
    (single_call delegate_call : Bool) :
    CheatcodesState × Except String (List ℕ) :=
  let p := Prank.new ccx.caller ccx.tx_caller new_caller new_origin ccx.depth
    single_call delegate_call
  let armedErr : Option String :=
    match ccx.state.prank with
    | some cur =>
      if ¬cur.used then
        some "cannot overwrite a prank until it is applied at least once"
      else if single_call ≠ cur.single_call then
        some "cannot override an ongoing prank with a single vm.prank; use vm.startPrank to override the current prank"
      else none
    | none => none
  match armedErr with
  | some e => (ccx.state, .error e)
  | none =>
    if ccx.state.broadcast.isSome then
      (ccx.state,
        .error "cannot `prank` for a broadcasted transaction; pass the desired `tx.origin` into the `broadcast` cheatcode call")
    else ({ ccx.state with prank := some p }, .ok [])

/-- `vm.prank(address)` (`prank_0Call::apply_stateful`). -/
def prank_0 (ccx : CheatsCtxt) (msgSender : Addr) :
    CheatcodesState × Except String (List ℕ) :=
  prankCheat ccx msgSender none true false

/-- `vm.startPrank(address)` (`startPrank_0Call::apply_stateful`). -/
def startPrank_0 (ccx : CheatsCtxt) (msgSender : Addr) :
    CheatcodesState × Except String (List ℕ) :=
  prankCheat ccx msgSender none false false

/-- `vm.prank(address,address)` (`prank_1Call::apply_stateful`). -/
def prank_1 (ccx : CheatsCtxt) (msgSender txOrigin : Addr) :
    CheatcodesState × Except String (List ℕ) :=
  prankCheat ccx msgSender (some txOrigin) true false

/-- `vm.startPrank(address,address)` (`startPrank_1Call::apply_stateful`). -/
def startPrank_1 (ccx : CheatsCtxt) (msgSender txOrigin : Addr) :
    CheatcodesState × Except String (List ℕ) :=
  prankCheat ccx msgSender (some txOrigin) false false

/-- `vm.stopPrank()` (`stopPrankCall::apply`): clears the stored prank and
returns the default success payload. -/
def stopPrank (s : CheatcodesState) : CheatcodesState × Except String (List ℕ) :=
  ({ s with prank := none }, .ok [])

/-- C6. Arming a prank via `prank`/`startPrank` fails with an error if and
only if an existing prank has `used = false`, or the requested
`single_call` flag differs from the existing prank's, or a broadcast is
active; the unused-prank failure occurs regardless of the requested
`new_caller` (the failure condition does not mention it). On failure the
whole cheatcode state is left unchanged; on success the new prank is
stored with `used = false`, recording the current caller, `tx.origin`,
the substitutes, the depth, and the `single_call`/`delegate_call`
flags. -/
theorem prank_arm_characterization (ccx : CheatsCtxt) (nc : Addr)
    (no : Option Addr) (sc dc : Bool) :
    ((∃ e, (prankCheat ccx nc no sc dc).2 = Except.error e) ↔
      ((∃ cur, ccx.state.prank = some cur ∧
          (cur.used = false ∨ sc ≠ cur.single_call)) ∨
        ccx.state.broadcast.isSome = true)) ∧
    ((prankCheat ccx nc no sc dc).2 = Except.ok [] ↔
      ¬ ((∃ cur, ccx.state.prank = some cur ∧
          (cur.used = false ∨ sc ≠ cur.single_call)) ∨
        ccx.state.broadcast.isSome = true)) ∧
    ((∃ e, (prankCheat ccx nc no sc dc).2 = Except.error e) →
      (prankCheat ccx nc no sc dc).1 = ccx.state) ∧
    ((prankCheat ccx nc no sc dc).2 = Except.ok [] →
      (prankCheat ccx nc no sc dc).1 =
        { ccx.state with
            prank := some (Prank.new ccx.caller ccx.tx_caller nc no
              ccx.depth sc dc) }) := by
  rcases hpk : ccx.state.prank with _ | cur
  · rcases hb : ccx.state.broadcast with _ | b
    · simp [prankCheat, hpk, hb]
    · simp [prankCheat, hpk, hb]
  · by_cases hu : cur.used = true
    · by_cases hsc : sc = cur.single_call
      · rcases hb : ccx.state.broadcast with _ | b
        · simp [prankCheat, hpk, hb, hu, hsc]
        · simp [prankCheat, hpk, hb, hu, hsc]
      · simp [prankCheat, hpk, hu, hsc]
    · rw [Bool.not_eq_true] at hu
      simp [prankCheat, hpk, hu]

/-- Witness for C6: a concrete arm attempt over an unused armed prank
fails and leaves the state unchanged; a concrete arm attempt from a clean
state succeeds and stores the fresh prank. -/
theorem prank_arm_characterization_witness :
    (∃ e, (prankCheat
      ⟨0xAAAA, 7, 1,
        ⟨some (Prank.new 5 6 0xBEEF none 1 true false), none, []⟩⟩
      0xCAFE none true false).2 = Except.error e) ∧
    (prankCheat ⟨0xAAAA, 7, 1, ⟨none, none, []⟩⟩ 0xBEEF none true false).1 =
      { prank := some (Prank.new 0xAAAA 7 0xBEEF none 1 true false),
        broadcast := none, labels := [] } := by
  constructor
  · exact (prank_arm_characterization
      ⟨0xAAAA, 7, 1,
        ⟨some (Prank.new 5 6 0xBEEF none 1 true false), none, []⟩⟩
      0xCAFE none true false).1.mpr
      (Or.inl ⟨Prank.new 5 6 0xBEEF none 1 true false, rfl, Or.inl rfl⟩)
  · exact (prank_arm_characterization
      ⟨0xAAAA, 7, 1, ⟨none, none, []⟩⟩ 0xBEEF none true false).2.2.2 rfl

/-- C10. `stopPrank` is total and always succeeds: for every prior
cheatcode state it clears the stored prank, returns the default success
payload, and touches nothing else — including when no prank is active (a
no-op success) and when the active prank is armed with `used = false`, so
an armed single-call prank is silently discarded without being
consumed. -/
theorem stopPrank_always_succeeds (s : CheatcodesState) :
    (stopPrank s).2 = Except.ok [] ∧
    (stopPrank s).1.prank = none ∧
    (stopPrank s).1.broadcast = s.broadcast ∧
    (stopPrank s).1.labels = s.labels ∧
    (∀ p : Prank, s.prank = some p → p.used = false →
      (stopPrank s).1.prank = none ∧ p.first_time_applied ≠ none) := by
  refine ⟨rfl, rfl, rfl, rfl, ?_⟩
  intro p _ hused
  refine ⟨rfl, ?_⟩
  simp [Prank.first_time_applied, hused]

/-- Witness for C10: discarding a concrete armed, unused single-call
prank succeeds without consuming it. -/
theorem stopPrank_always_succeeds_witness :
    (stopPrank ⟨some (Prank.new 5 6 0xBEEF none 1 true false), none, []⟩).1.prank
      = none ∧
    (Prank.new 5 6 0xBEEF none 1 true false).first_time_applied ≠ none :=
  (stopPrank_always_succeeds
    ⟨some (Prank.new 5 6 0xBEEF none 1 true false), none, []⟩).2.2.2.2
    (Prank.new 5 6 0xBEEF none 1 true false) rfl rfl

/-! ## Inspector stack (`crates/evm/evm/src/inspectors/stack.rs`)

The execution engine (revm) is external: interpreter internals, the
backend database and `evm_inner(..).transact()` are parameters of the
model (`ExtSemantics`). Each inspector slot, when configured, carries
abstract behaviour functions for the hooks; the stack code under
verification is the fan-out logic (the `call_inspectors!` macro, the
depth bookkeeping, and the inner-context mechanism of
`InspectorStack::call` / `InspectorStack::create`).
-/

/-- `revm::interpreter::InstructionResult`, reduced to the distinctions
the stack code makes (`Continue` versus decisive, and `Revert`). -/
inductive InstructionResult where
  | Continue
  | Stop
  | Return
  | Revert
  | Halt
  deriving Repr, DecidableEq

/-- `revm::interpreter::Gas`: a gas limit with recorded cost and refund. -/
structure Gas where
  limit : ℕ
  spent : ℕ
  refunded : ℤ
  deriving Repr, DecidableEq

namespace Gas

/-- `Gas::new(limit)`: all of `limit` remaining. -/
def new (limit : ℕ) : Gas := { limit := limit, spent := 0, refunded := 0 }

/-- `Gas::record_cost`. -/
def record_cost (g : Gas) (cost : ℕ) : Gas := { g with spent := g.spent + cost }

/-- `Gas::set_refund`. -/
def set_refund (g : Gas) (refund : ℤ) : Gas := { g with refunded := refund }

end Gas

/-- `revm::interpreter::CallInputs`, the fields the stack reads:
`contract`, `context.caller`, `input`, `transfer.value`, `gas_limit`,
`is_static`. -/
structure CallInputs where
  contract : Addr
  caller : Addr
  input : List ℕ
  value : ℕ
  gas_limit : ℕ
  is_static : Bool
  deriving Repr, DecidableEq

/-- `revm::interpreter::CreateInputs`: `caller`, `scheme` (opaque),
`value`, `init_code`, `gas_limit`. -/
structure CreateInputs where
  caller : Addr
  scheme : ℕ
  value : ℕ
  init_code : List ℕ
  gas_limit : ℕ
  deriving Repr, DecidableEq

/-- `revm::primitives::TransactTo`. -/
inductive TransactTo where
  | call (a : Addr)
  | create (scheme : ℕ)
  deriving Repr, DecidableEq

/-- `revm::primitives::BlockEnv`: the fields the mechanism overwrites,
plus `other` standing for all fields copied verbatim by `..clone()`. -/
structure BlockEnv where
  basefee : ℕ
  gas_limit : ℕ
  other : ℕ
  deriving Repr, DecidableEq

/-- `revm::primitives::TxEnv`: the fields the mechanism overwrites, plus
`other` for the fields copied verbatim by `..clone()`. -/
structure TxEnv where
  caller : Addr
  transact_to : TransactTo
  data : List ℕ
  value : ℕ
  gas_limit : ℕ
  nonce : Option ℕ
  gas_price : ℕ
  other : ℕ
  deriving Repr, DecidableEq

/-- `revm::primitives::Env`. -/
structure Env where
  cfg : ℕ
  block : BlockEnv
  tx : TxEnv
  deriving Repr, DecidableEq

/-- A `revm` account as seen by `merge_states`: status bit-flags, info,
storage slots. -/
structure Account where
  status : ℕ
  info : ℕ
  storage : List (ℕ × ℕ)
  deriving Repr, DecidableEq

/-- `revm::primitives::State`: per-account state (iteration order made
explicit as a list). -/
abbrev EvmState := List (Addr × Account)

/-- `merge_states` (stack.rs): for each new account, OR the status bits,
overwrite the info, extend the storage; unknown addresses are inserted. -/
def merge_states (main_state : EvmState) (new_state : EvmState) : EvmState :=
  new_state.foldl
    (fun m p =>
      if (m.lookup p.1).isSome then
        m.map (fun q =>
          if q.1 = p.1 then
            (q.1, { status := Nat.lor q.2.status p.2.status,
                    info := p.2.info,
                    storage := q.2.storage ++ p.2.storage })
          else q)
      else m ++ [p])
    main_state

/-- The journaled state: recursion depth plus the live account diff. -/
structure JournaledState where
  depth : ℕ
  state : EvmState
  deriving Repr, DecidableEq

/-- `revm::EVMData`, restricted to what the stack touches. -/
structure EVMData (DB : Type) where
  journaled_state : JournaledState
  db : DB
  env : Env

/-- Interpreter state as seen by the stack: the `instruction_result` it
compares for early exit, with the remaining interpreter state opaque. -/
structure Interpreter where
  instruction_result : InstructionResult
  other : ℕ
  deriving Repr, DecidableEq

/-- `revm::primitives::Output`. -/
inductive Output where
  | callOut (data : List ℕ)
  | createOut (data : List ℕ) (address : Option Addr)
  deriving Repr, DecidableEq

/-- `Output::into_data`. -/
def Output.into_data : Output → List ℕ
  | .callOut d => d
  | .createOut d _ => d

/-- `revm::primitives::ExecutionResult` (reasons opaque). -/
inductive ExecutionResult where
  | success (reason : ℕ) (gas_used : ℕ) (gas_refunded : ℕ) (output : Output)
  | halt (reason : ℕ) (gas_used : ℕ)
  | revert (gas_used : ℕ) (output : List ℕ)
  deriving Repr, DecidableEq

/-- External engine semantics: backend commit, account-nonce lookup
(`journaled_state.load_account(..).info.nonce`; the code `expect`s
success, so the model is total), the inner
`evm_inner(&mut env, db, Some(self)).transact()` (which also mutates the
db), and `eval_to_instruction_result` / `halt_to_instruction_result`
from `foundry_evm_core::utils`. -/
structure ExtSemantics (DB : Type) where
  commit : DB → EvmState → DB
  nonceOf : DB → Addr → ℕ
  transact : Env → DB → ExecutionResult × EvmState × DB
  evalToIR : ℕ → InstructionResult
  haltToIR : ℕ → InstructionResult

/-- Abstract behaviour of one configured inspector: what its hooks do to
the interpreter, the EVM data and the (mutable) call inputs, and what
they answer. -/
structure InspBehavior (DB : Type) where
  init_interp : Interpreter × EVMData DB → Interpreter × EVMData DB
  step : Interpreter × EVMData DB → Interpreter × EVMData DB
  log : EVMData DB → Addr → List ℕ → List ℕ → EVMData DB
  call : EVMData DB → CallInputs →
    EVMData DB × CallInputs × (InstructionResult × Gas × List ℕ)
  create : EVMData DB → CreateInputs →
    EVMData DB × CreateInputs × (InstructionResult × Option Addr × Gas × List ℕ)

/-- The inspector stack: one optional slot per inspector variant plus the
inner-context flag. -/
structure InspectorStack (DB : Type) where
  cheatcodes : Option (InspBehavior DB) := none
  chisel_state : Option (InspBehavior DB) := none
  coverage : Option (InspBehavior DB) := none
  debugger : Option (InspBehavior DB) := none
  fuzzer : Option (InspBehavior DB) := none
  log_collector : Option (InspBehavior DB) := none
  printer : Option (InspBehavior DB) := none
  tracer : Option (InspBehavior DB) := none
  in_inner_context : Bool := false

/-- The `call_inspectors!` macro, first form: run each present slot in
declared order; the instant a slot's closure answers `some r`, stop and
return `r`. -/
def callInspectorsLoop {α ρ : Type} :
    List (Option (α → α × Option ρ)) → α → α × Option ρ
  | [], s => (s, none)
  | none :: rest, s => callInspectorsLoop rest s
  | some f :: rest, s =>
    match f s with
    | (s', some r) => (s', some r)
    | (s', none) => callInspectorsLoop rest s'

/-- The `call_inspectors!` macro, second form: when `in_inner_context`,
bump `journaled_state.depth` before the loop and restore it around
whichever exit is taken. -/
def callInspectorsWithDepth {α ρ : Type} (in_inner : Bool) (inc dec : α → α)
    (fs : List (Option (α → α × Option ρ))) (s : α) : α × Option ρ :=
  if in_inner then
    match callInspectorsLoop fs (inc s) with
    | (s', some r) => (dec s', some r)
    | (s', none) => (dec s', none)
  else callInspectorsLoop fs s

/-- Plain in-order application of every present slot (the behaviour the
spec ascribes to the side-effect-only hooks). -/
def foldPresent {α : Type} : List (Option (α → α)) → α → α
  | [], s => s
  | none :: rest, s => foldPresent rest s
  | some f :: rest, s => foldPresent rest (f s)

namespace InspectorStack

variable {DB : Type}

def bumpID (s : Interpreter × EVMData DB) : Interpreter × EVMData DB :=
  (s.1, { s.2 with journaled_state :=
    { s.2.journaled_state with depth := s.2.journaled_state.depth + 1 } })

def dropID (s : Interpreter × EVMData DB) : Interpreter × EVMData DB :=
  (s.1, { s.2 with journaled_state :=
    { s.2.journaled_state with depth := s.2.journaled_state.depth - 1 } })

def bumpD (s : EVMData DB × CallInputs) : EVMData DB × CallInputs :=
  ({ s.1 with journaled_state :=
    { s.1.journaled_state with depth := s.1.journaled_state.depth + 1 } }, s.2)

def dropD (s : EVMData DB × CallInputs) : EVMData DB × CallInputs :=
  ({ s.1 with journaled_state :=
    { s.1.journaled_state with depth := s.1.journaled_state.depth - 1 } }, s.2)

def bumpDC (s : EVMData DB × CreateInputs) : EVMData DB × CreateInputs :=
  ({ s.1 with journaled_state :=
    { s.1.journaled_state with depth := s.1.journaled_state.depth + 1 } }, s.2)

def dropDC (s : EVMData DB × CreateInputs) : EVMData DB × CreateInputs :=
  ({ s.1 with journaled_state :=
    { s.1.journaled_state with depth := s.1.journaled_state.depth - 1 } }, s.2)

def bumpL (d : EVMData DB) : EVMData DB :=
  { d with journaled_state :=
    { d.journaled_state with depth := d.journaled_state.depth + 1 } }

def dropL (d : EVMData DB) : EVMData DB :=
  { d with journaled_state :=
    { d.journaled_state with depth := d.journaled_state.depth - 1 } }

/-- `InspectorStack::initialize_interp`: captures `res`, runs
`[debugger, coverage, tracer, log_collector, cheatcodes, printer]`,
exiting early the moment an inspector changed `instruction_result`. -/
def initInterp (st : InspectorStack DB) (ip : Interpreter) (data : EVMData DB) :
    Interpreter × EVMData DB :=
  let res := ip.instruction_result
  let slots := [st.debugger, st.coverage, st.tracer, st.log_collector,
    st.cheatcodes, st.printer]
  let behav := slots.map (Option.map (fun b (s : Interpreter × EVMData DB) =>
    let s' := b.init_interp s
    (s', if s'.1.instruction_result ≠ res then some () else none)))
  (callInspectorsWithDepth st.in_inner_context bumpID dropID behav (ip, data)).1

/-- `InspectorStack::step`: like `initialize_interp` but over
`[fuzzer, debugger, tracer, coverage, log_collector, cheatcodes,
printer]`. -/
def stepHook (st : InspectorStack DB) (ip : Interpreter) (data : EVMData DB) :
    Interpreter × EVMData DB :=
  let res := ip.instruction_result
  let slots := [st.fuzzer, st.debugger, st.tracer, st.coverage,
    st.log_collector, st.cheatcodes, st.printer]
  let behav := slots.map (Option.map (fun b (s : Interpreter × EVMData DB) =>
    let s' := b.step s
    (s', if s'.1.instruction_result ≠ res then some () else none)))
  (callInspectorsWithDepth st.in_inner_context bumpID dropID behav (ip, data)).1

/-- `InspectorStack::log`: runs
`[tracer, log_collector, cheatcodes, printer]`; the per-inspector closure
returns `None`, so there is no early exit. -/
def logHook (st : InspectorStack DB) (data : EVMData DB) (address : Addr)
    (topics ldata : List ℕ) : EVMData DB :=
  let slots := [st.tracer, st.log_collector, st.cheatcodes, st.printer]
  let behav := slots.map (Option.map (fun b (d : EVMData DB) =>
    (b.log d address topics ldata, (none : Option Unit))))
  (callInspectorsWithDepth st.in_inner_context bumpL dropL behav data).1

/-- `InspectorStack::selfdestruct`: fans out over
`[debugger, tracer, log_collector, cheatcodes, printer, chisel_state]`
with a closure that returns `None`; inspector `selfdestruct` hooks mutate
only the inspectors' own state, abstracted as `σ` (the `contract`,
`target`, `value` arguments are already applied inside each slot's
function). -/
def selfdestructHook {σ : Type} (slots : List (Option (σ → σ))) (s : σ) : σ :=
  (callInspectorsLoop
    (slots.map (Option.map (fun f st => (f st, (none : Option Unit))))) s).1

/-- The environment synthesized by the inner-context mechanism for an
intercepted call (stack.rs, `InspectorStack::call`): the outer `cfg` and
`block` with `basefee = 0` and `gas_limit = U256::MAX`, and a `tx` with
the intercepted call's caller/target/input/value/gas limit, the caller's
current nonce, and `gas_price = 0`. -/
def synthCallEnv (env : Env) (call : CallInputs) (nonce : ℕ) : Env :=
  { cfg := env.cfg,
    block := { basefee := 0, gas_limit := U256_MAX, other := env.block.other },
    tx := { caller := call.caller,
            transact_to := TransactTo.call call.contract,
            data := call.input,
            value := call.value,
            gas_limit := call.gas_limit,
            nonce := some nonce,
            gas_price := 0,
            other := env.tx.other } }

/-- Ditto for an intercepted create (`InspectorStack::create`). -/
def synthCreateEnv (env : Env) (call : CreateInputs) (nonce : ℕ) : Env :=
  { cfg := env.cfg,
    block := { basefee := 0, gas_limit := U256_MAX, other := env.block.other },
    tx := { caller := call.caller,
            transact_to := TransactTo.create call.scheme,
            data := call.init_code,
            value := call.value,
            gas_limit := call.gas_limit,
            nonce := some nonce,
            gas_price := 0,
            other := env.tx.other } }

/-- The inner-context mechanism for calls (stack.rs lines 538–589):
commit the journaled state, read the caller's nonce, synthesize the
environment, transact it through a fresh VM (external), merge the
resulting state, and translate the execution result into the
`(status, gas, output)` calling convention. -/
def innerContextCall (X : ExtSemantics DB) (data : EVMData DB)
    (call : CallInputs) : EVMData DB × (InstructionResult × Gas × List ℕ) :=
  let db1 := X.commit data.db data.journaled_state.state
  let nonce := X.nonceOf db1 call.caller
  let env := synthCallEnv data.env call nonce
  let (res, rstate, db2) := X.transact env db1
  let gas := Gas.new call.gas_limit
  let data' := { data with
    db := db2,
    journaled_state := { data.journaled_state with
      state := merge_states data.journaled_state.state rstate } }
  match res with
  | .success reason gas_used gas_refunded output =>
    (data', (X.evalToIR reason,
      (gas.set_refund (gas_refunded : ℤ)).record_cost gas_used,
      output.into_data))
  | .halt reason gas_used =>
    (data', (X.haltToIR reason, gas.record_cost gas_used, []))
  | .revert gas_used output =>
    (data', (InstructionResult.Revert, gas.record_cost gas_used, output))

/-- The inner-context mechanism for creates (stack.rs lines 653–709).
(`Output::Call` under a create transaction is unreachable by the engine
contract — the code panics there; the model returns no address.) -/
def innerContextCreate (X : ExtSemantics DB) (data : EVMData DB)
    (call : CreateInputs) :
    EVMData DB × (InstructionResult × Option Addr × Gas × List ℕ) :=
  let db1 := X.commit data.db data.journaled_state.state
  let nonce := X.nonceOf db1 call.caller
  let env := synthCreateEnv data.env call nonce
  let (res, rstate, db2) := X.transact env db1
  let gas := Gas.new call.gas_limit
  let data' := { data with
    db := db2,
    journaled_state := { data.journaled_state with
      state := merge_states data.journaled_state.state rstate } }
  match res with
  | .success reason gas_used gas_refunded output =>
    (data', (X.evalToIR reason,
      (match output with
        | .createOut _ address => address
        | .callOut _ => none),
      (gas.set_refund (gas_refunded : ℤ)).record_cost gas_used,
      output.into_data))
  | .halt reason gas_used =>
    (data', (X.haltToIR reason, none, gas.record_cost gas_used, []))
  | .revert gas_used output =>
    (data', (InstructionResult.Revert, none, gas.record_cost gas_used, output))

/-- The inspector fan-out part of `InspectorStack::call`: run
`[fuzzer, debugger, tracer, coverage, log_collector, cheatcodes,
printer]`, stopping at the first non-`Continue` answer. -/
def callLoop (st : InspectorStack DB) (data : EVMData DB) (call : CallInputs) :
    (EVMData DB × CallInputs) ×
      Option (InstructionResult × Gas × List ℕ) :=
  let slots := [st.fuzzer, st.debugger, st.tracer, st.coverage,
    st.log_collector, st.cheatcodes, st.printer]
  let behav := slots.map (Option.map (fun b (s : EVMData DB × CallInputs) =>
    let (d', c', r) := b.call s.1 s.2
    ((d', c'), if r.1 ≠ InstructionResult.Continue then some r else none)))
  callInspectorsWithDepth st.in_inner_context bumpD dropD behav (data, call)

/-- `InspectorStack::call`: skip inner-context dispatch observed at depth
0; otherwise fan out to the inspectors (first decisive answer wins), and
for a non-static call at depth 1 outside the inner context run the
inner-context mechanism; in every remaining case answer
`(Continue, Gas::new(gas_limit), empty)`. -/
def callHook (X : ExtSemantics DB) (st : InspectorStack DB)
    (data : EVMData DB) (call : CallInputs) :
    EVMData DB × CallInputs × (InstructionResult × Gas × List ℕ) :=
  if st.in_inner_context ∧ data.journaled_state.depth = 0 then
    (data, call, (InstructionResult.Continue, Gas.new call.gas_limit, []))
  else
    match callLoop st data call with
    | ((d', c'), some r) => (d', c', r)
    | ((d', c'), none) =>
      if ¬c'.is_static ∧ ¬st.in_inner_context ∧
          d'.journaled_state.depth = 1 then
        let (d'', r) := innerContextCall X d' c'
        (d'', c', r)
      else
        (d', c', (InstructionResult.Continue, Gas.new c'.gas_limit, []))

/-- The inspector fan-out part of `InspectorStack::create`
(`[debugger, tracer, coverage, log_collector, cheatcodes, printer]`). -/
def createLoop (st : InspectorStack DB) (data : EVMData DB)
    (call : CreateInputs) :
    (EVMData DB × CreateInputs) ×
      Option (InstructionResult × Option Addr × Gas × List ℕ) :=
  let slots := [st.debugger, st.tracer, st.coverage, st.log_collector,
    st.cheatcodes, st.printer]
  let behav := slots.map (Option.map (fun b (s : EVMData DB × CreateInputs) =>
    let (d', c', r) := b.create s.1 s.2
    ((d', c'), if r.1 ≠ InstructionResult.Continue then some r else none)))
  callInspectorsWithDepth st.in_inner_context bumpDC dropDC behav (data, call)

/-- `InspectorStack::create`: like `callHook` but the mechanism triggers
for every (also static-context) create at depth 1 outside the inner
context. -/
def createHook (X : ExtSemantics DB) (st : InspectorStack DB)
    (data : EVMData DB) (call : CreateInputs) :
    EVMData DB × CreateInputs ×
      (InstructionResult × Option Addr × Gas × List ℕ) :=
  if st.in_inner_context ∧ data.journaled_state.depth = 0 then
    (data, call,
      (InstructionResult.Continue, none, Gas.new call.gas_limit, []))
  else
    match createLoop st data call with
    | ((d', c'), some r) => (d', c', r)
    | ((d', c'), none) =>
      if ¬st.in_inner_context ∧ d'.journaled_state.depth = 1 then
        let (d'', r) := innerContextCreate X d' c'
        (d'', c', r)
      else
        (d', c',
          (InstructionResult.Continue, none, Gas.new c'.gas_limit, []))

/-- No inspector slot is configured. -/
def noInspectors (st : InspectorStack DB) : Prop :=
  st.cheatcodes = none ∧ st.chisel_state = none ∧ st.coverage = none ∧
  st.debugger = none ∧ st.fuzzer = none ∧ st.log_collector = none ∧
  st.printer = none ∧ st.tracer = none

end InspectorStack

namespace InspectorStack

/-- The macro loop with an always-`None` closure runs every present slot
in order. -/
theorem loopFoldNone {α ι : Type} (e : ι → α → α) (slots : List (Option ι))
    (s : α) :
    callInspectorsLoop
      (slots.map (Option.map (fun b st => (e b st, (none : Option Unit))))) s
      = (foldPresent (slots.map (Option.map e)) s, none) := by
  induction slots generalizing s with
  | nil => rfl
  | cons hd tl ih =>
    cases hd with
    | none => simpa [callInspectorsLoop, foldPresent] using ih s
    | some b => simpa [callInspectorsLoop, foldPresent] using ih (e b s)

/-- The macro loop whose closure exits early when a projection `p` moved
away from `res` runs every present slot in order, provided every present
slot preserves `p`. -/
theorem loopFoldPreserving {α β ι : Type} [DecidableEq β] (p : α → β)
    (res : β) (e : ι → α → α) (slots : List (Option ι))
    (hpres : ∀ b, some b ∈ slots → ∀ s, p (e b s) = p s) :
    ∀ s, p s = res →
    callInspectorsLoop
      (slots.map (Option.map (fun b st =>
        (e b st, if p (e b st) ≠ res then some () else none)))) s
      = (foldPresent (slots.map (Option.map e)) s, none) := by
  induction slots with
  | nil => intro s _; rfl
  | cons hd tl ih =>
    intro s hs
    cases hd with
    | none =>
      simpa [callInspectorsLoop, foldPresent] using
        ih (fun b hb => hpres b (List.mem_cons_of_mem _ hb)) s hs
    | some b =>
      have hp : p (e b s) = res := by
        rw [hpres b (List.mem_cons_self _ _) s, hs]
      simp only [List.map_cons, Option.map_some, callInspectorsLoop,
        foldPresent, hp, ne_eq, not_true_eq_false, if_neg, if_false]
      exact ih (fun b hb => hpres b (List.mem_cons_of_mem _ hb)) (e b s)
        (by rw [hpres b (List.mem_cons_self _ _), hs])

end InspectorStack

namespace InspectorStack

variable {DB : Type}

/-- `log` fan-out runs every present inspector in order (outer context):
the closure always answers `None`. -/
theorem logHook_runs_all (st : InspectorStack DB)
    (h : st.in_inner_context = false) (data : EVMData DB) (address : Addr)
    (topics ldata : List ℕ) :
    logHook st data address topics ldata =
      foldPresent
        ([st.tracer, st.log_collector, st.cheatcodes, st.printer].map
          (Option.map (fun (b : InspBehavior DB) (d : EVMData DB) =>
            b.log d address topics ldata))) data := by
  unfold logHook callInspectorsWithDepth
  rw [h]
  simp only [Bool.false_eq_true, if_false]
  exact congrArg Prod.fst
    (loopFoldNone (fun (b : InspBehavior DB) (d : EVMData DB) =>
      b.log d address topics ldata) _ data)

/-- `selfdestruct` fan-out runs every present inspector in order. -/
theorem selfdestructHook_runs_all {σ : Type}
    (slots : List (Option (σ → σ))) (s : σ) :
    selfdestructHook slots s = foldPresent slots s := by
  have hmap : slots.map (Option.map (fun f : σ → σ => f)) = slots := by
    induction slots with
    | nil => rfl
    | cons hd tl ih => cases hd <;> simp [ih]
  have h1 : selfdestructHook slots s =
      foldPresent (slots.map (Option.map (fun f : σ → σ => f))) s :=
    congrArg Prod.fst (loopFoldNone (fun f : σ → σ => f) slots s)
  rw [h1, hmap]

/-- `initialize_interp` fan-out runs every present inspector in order,
provided none of them moves `instruction_result`. -/
theorem initInterp_runs_all (st : InspectorStack DB)
    (h : st.in_inner_context = false) (ip : Interpreter) (data : EVMData DB)
    (hpres : ∀ b, some b ∈ [st.debugger, st.coverage, st.tracer,
        st.log_collector, st.cheatcodes, st.printer] →
      ∀ s : Interpreter × EVMData DB,
        (b.init_interp s).1.instruction_result = s.1.instruction_result) :
    initInterp st ip data =
      foldPresent
        ([st.debugger, st.coverage, st.tracer, st.log_collector,
          st.cheatcodes, st.printer].map
            (Option.map (fun b : InspBehavior DB => b.init_interp)))
        (ip, data) := by
  unfold initInterp callInspectorsWithDepth
  rw [h]
  simp only [Bool.false_eq_true, if_false]
  exact congrArg Prod.fst
    (loopFoldPreserving (fun s => s.1.instruction_result)
      ip.instruction_result (fun b : InspBehavior DB => b.init_interp) _
      hpres (ip, data) rfl)

/-- `step` fan-out runs every present inspector in order, provided none
of them moves `instruction_result`. -/
theorem stepHook_runs_all (st : InspectorStack DB)
    (h : st.in_inner_context = false) (ip : Interpreter) (data : EVMData DB)
    (hpres : ∀ b, some b ∈ [st.fuzzer, st.debugger, st.tracer, st.coverage,
        st.log_collector, st.cheatcodes, st.printer] →
      ∀ s : Interpreter × EVMData DB,
        (b.step s).1.instruction_result = s.1.instruction_result) :
    stepHook st ip data =
      foldPresent
        ([st.fuzzer, st.debugger, st.tracer, st.coverage, st.log_collector,
          st.cheatcodes, st.printer].map
            (Option.map (fun b : InspBehavior DB => b.step))) (ip, data) := by
  unfold stepHook callInspectorsWithDepth
  rw [h]
  simp only [Bool.false_eq_true, if_false]
  exact congrArg Prod.fst
    (loopFoldPreserving (fun s => s.1.instruction_result)
      ip.instruction_result (fun b : InspBehavior DB => b.step) _
      hpres (ip, data) rfl)

end InspectorStack

namespace InspectorStack

variable {DB : Type}

theorem dropID_bumpID (s : Interpreter × EVMData DB) : dropID (bumpID s) = s := by
  obtain ⟨ip, ⟨⟨dep, jst⟩, db, env⟩⟩ := s
  simp [bumpID, dropID]

theorem dropD_bumpD (s : EVMData DB × CallInputs) : dropD (bumpD s) = s := by
  obtain ⟨⟨⟨dep, jst⟩, db, env⟩, c⟩ := s
  simp [bumpD, dropD]

theorem dropDC_bumpDC (s : EVMData DB × CreateInputs) : dropDC (bumpDC s) = s := by
  obtain ⟨⟨⟨dep, jst⟩, db, env⟩, c⟩ := s
  simp [bumpDC, dropDC]

theorem dropL_bumpL (d : EVMData DB) : dropL (bumpL d) = d := by
  obtain ⟨⟨dep, jst⟩, db, env⟩ := d
  simp [bumpL, dropL]

/-- With no inspectors, the fan-out loop of `call` answers nothing and
returns the inputs unchanged. -/
theorem callLoop_noInspectors (st : InspectorStack DB) (h : noInspectors st)
    (data : EVMData DB) (call : CallInputs) :
    callLoop st data call = ((data, call), none) := by
  obtain ⟨hc, hch, hcov, hd, hf, hl, hp, ht⟩ := h
  unfold callLoop callInspectorsWithDepth
  rw [hf, hd, ht, hcov, hl, hc, hp]
  cases hi : st.in_inner_context
  · rfl
  · show (dropD (bumpD (data, call)), none) = ((data, call), none)
    rw [dropD_bumpD]

/-- With no inspectors, the fan-out loop of `create` answers nothing and
returns the inputs unchanged. -/
theorem createLoop_noInspectors (st : InspectorStack DB) (h : noInspectors st)
    (data : EVMData DB) (call : CreateInputs) :
    createLoop st data call = ((data, call), none) := by
  obtain ⟨hc, hch, hcov, hd, hf, hl, hp, ht⟩ := h
  unfold createLoop callInspectorsWithDepth
  rw [hd, ht, hcov, hl, hc, hp]
  cases hi : st.in_inner_context
  · rfl
  · show (dropDC (bumpDC (data, call)), none) = ((data, call), none)
    rw [dropDC_bumpDC]

end InspectorStack

open InspectorStack

/-- An inspector whose every hook does nothing and answers `Continue`
with full gas (the default hook implementations). -/
def passiveInsp (DB : Type) : InspBehavior DB :=
  { init_interp := id, step := id,
    log := fun d _ _ _ => d,
    call := fun d c =>
      (d, c, (InstructionResult.Continue, Gas.new c.gas_limit, [])),
    create := fun d c =>
      (d, c, (InstructionResult.Continue, none, Gas.new c.gas_limit, [])) }

/-- An inspector whose `step` hook flips `instruction_result` to
`Revert`. -/
def haltStepInsp : InspBehavior ℕ :=
  { passiveInsp ℕ with
    step := fun s =>
      ({ s.1 with instruction_result := InstructionResult.Revert }, s.2) }

/-- An inspector whose `step` hook leaves an observable mark (bumps the
db counter). -/
def markStepInsp : InspBehavior ℕ :=
  { passiveInsp ℕ with step := fun s => (s.1, { s.2 with db := s.2.db + 1 }) }

/-- A concrete outer environment. -/
def envF : Env :=
  { cfg := 0,
    block := { basefee := 7, gas_limit := 30000000, other := 11 },
    tx := { caller := 0, transact_to := TransactTo.call 0, data := [],
            value := 0, gas_limit := 0, nonce := none, gas_price := 2,
            other := 13 } }

/-- Concrete EVM data at depth 1 over a counter db. -/
def dataF : EVMData ℕ :=
  { journaled_state := { depth := 1, state := [] }, db := 0, env := envF }

def ipF : Interpreter :=
  { instruction_result := InstructionResult.Continue, other := 0 }

/-- Concrete external semantics over a counter db: `commit` bumps the
counter, the inner transaction reverts with output `[9]` after using 5
gas. -/
def extF : ExtSemantics ℕ :=
  { commit := fun db _ => db + 1,
    nonceOf := fun _ _ => 0,
    transact := fun _ db => (ExecutionResult.revert 5 [9], [], db),
    evalToIR := fun _ => InstructionResult.Return,
    haltToIR := fun _ => InstructionResult.Halt }

/-- The stack with no inspectors configured. -/
def stEmpty : InspectorStack ℕ := {}

/-- A stack whose only inspectors are a result-flipping fuzzer and a
marking debugger (for the step hook). -/
def stStepF : InspectorStack ℕ :=
  { fuzzer := some haltStepInsp, debugger := some markStepInsp }

/-- A stack with only the (passive) log collector configured. -/
def stLogF : InspectorStack ℕ := { log_collector := some (passiveInsp ℕ) }

def callF : CallInputs :=
  { contract := 7, caller := 3, input := [1], value := 0, gas_limit := 100,
    is_static := false }

def callStaticF : CallInputs := { callF with is_static := true }

/-- C3 (counterexample). The claim says that with no inspectors
configured every hook — in particular the call hook at every depth — is a
no-op returning `(Continue, gas limit, empty)` and leaves all state
unchanged. At depth 1, for a non-static call outside the inner context,
the empty stack still runs the inner-context transaction: with a backend
whose inner transaction reverts, the hook answers `Revert` and the
committed db changes. -/
theorem no_inspectors_call_mechanism_fires :
    noInspectors stEmpty ∧ stEmpty.in_inner_context = false ∧
    dataF.journaled_state.depth = 1 ∧
    (callHook extF stEmpty dataF callF).2.2.1 = InstructionResult.Revert ∧
    (callHook extF stEmpty dataF callF).1.db = dataF.db + 1 :=
  ⟨⟨rfl, rfl, rfl, rfl, rfl, rfl, rfl, rfl⟩, rfl, rfl, rfl, rfl⟩

/-- C3 (amended). With no inspectors configured, the
initialize/step/log hooks are no-ops, and the call/create hooks are
no-ops returning `(Continue, gas limit, empty)` with all state unchanged
— except that a non-static call (and any create) observed at depth 1
outside the inner context still runs the inner-context transaction
mechanism, whose result and state changes are those of the synthesized
inner transaction. -/
theorem no_inspectors_hooks (DB : Type) (X : ExtSemantics DB)
    (st : InspectorStack DB) (h : noInspectors st) :
    (∀ ip data, initInterp st ip data = (ip, data)) ∧
    (∀ ip data, stepHook st ip data = (ip, data)) ∧
    (∀ data address topics ldata, logHook st data address topics ldata = data) ∧
    (∀ (data : EVMData DB) (call : CallInputs),
      call.is_static = true ∨ st.in_inner_context = true ∨
        data.journaled_state.depth ≠ 1 →
      callHook X st data call =
        (data, call, (InstructionResult.Continue, Gas.new call.gas_limit, []))) ∧
    (∀ (data : EVMData DB) (call : CallInputs),
      call.is_static = false → st.in_inner_context = false →
      data.journaled_state.depth = 1 →
      callHook X st data call =
        ((innerContextCall X data call).1, call,
          (innerContextCall X data call).2)) ∧
    (∀ (data : EVMData DB) (call : CreateInputs),
      st.in_inner_context = true ∨ data.journaled_state.depth ≠ 1 →
      createHook X st data call =
        (data, call,
          (InstructionResult.Continue, none, Gas.new call.gas_limit, []))) ∧
    (∀ (data : EVMData DB) (call : CreateInputs),
      st.in_inner_context = false → data.journaled_state.depth = 1 →
      createHook X st data call =
        ((innerContextCreate X data call).1, call,
          (innerContextCreate X data call).2)) := by
  obtain ⟨hc, hch, hcov, hd, hf, hl, hp, ht⟩ := h
  refine ⟨?_, ?_, ?_, ?_, ?_, ?_, ?_⟩
  · intro ip data
    unfold initInterp callInspectorsWithDepth
    rw [hd, hcov, ht, hl, hc, hp]
    cases hi : st.in_inner_context
    · rfl
    · show dropID (bumpID (ip, data)) = (ip, data)
      rw [dropID_bumpID]
  · intro ip data
    unfold stepHook callInspectorsWithDepth
    rw [hf, hd, ht, hcov, hl, hc, hp]
    cases hi : st.in_inner_context
    · rfl
    · show dropID (bumpID (ip, data)) = (ip, data)
      rw [dropID_bumpID]
  · intro data address topics ldata
    unfold logHook callInspectorsWithDepth
    rw [ht, hl, hc, hp]
    cases hi : st.in_inner_context
    · rfl
    · show (dropL (bumpL data)) = data
      rw [dropL_bumpL]
  · intro data call hcase
    unfold callHook
    rw [callLoop_noInspectors st ⟨hc, hch, hcov, hd, hf, hl, hp, ht⟩]
    by_cases hg : st.in_inner_context = true ∧ data.journaled_state.depth = 0
    · rw [if_pos hg]
    · rw [if_neg hg]
      have hm : ¬(¬call.is_static = true ∧ ¬st.in_inner_context = true ∧
          data.journaled_state.depth = 1) := by
        rcases hcase with h1 | h1 | h1
        · intro hx; rw [h1] at hx; exact hx.1 rfl
        · intro hx; rw [h1] at hx; exact hx.2.1 rfl
        · intro hx; exact h1 hx.2.2
      dsimp only
      rw [if_neg hm]
  · intro data call hs hi hdep
    unfold callHook
    rw [callLoop_noInspectors st ⟨hc, hch, hcov, hd, hf, hl, hp, ht⟩]
    have hg : ¬(st.in_inner_context = true ∧ data.journaled_state.depth = 0) := by
      intro hx; rw [hi] at hx; exact absurd hx.1 (by simp)
    rw [if_neg hg]
    have hm : ¬call.is_static = true ∧ ¬st.in_inner_context = true ∧
        data.journaled_state.depth = 1 := by
      refine ⟨?_, ?_, hdep⟩
      · rw [hs]; simp
      · rw [hi]; simp
    dsimp only
    rw [if_pos hm]
  · intro data call hcase
    unfold createHook
    rw [createLoop_noInspectors st ⟨hc, hch, hcov, hd, hf, hl, hp, ht⟩]
    by_cases hg : st.in_inner_context = true ∧ data.journaled_state.depth = 0
    · rw [if_pos hg]
    · rw [if_neg hg]
      have hm : ¬(¬st.in_inner_context = true ∧
          data.journaled_state.depth = 1) := by
        rcases hcase with h1 | h1
        · intro hx; rw [h1] at hx; exact hx.1 rfl
        · intro hx; exact h1 hx.2
      dsimp only
      rw [if_neg hm]
  · intro data call hi hdep
    unfold createHook
    rw [createLoop_noInspectors st ⟨hc, hch, hcov, hd, hf, hl, hp, ht⟩]
    have hg : ¬(st.in_inner_context = true ∧ data.journaled_state.depth = 0) := by
      intro hx; rw [hi] at hx; exact absurd hx.1 (by simp)
    rw [if_neg hg]
    have hm : ¬st.in_inner_context = true ∧ data.journaled_state.depth = 1 := by
      refine ⟨?_, hdep⟩
      rw [hi]; simp
    dsimp only
    rw [if_pos hm]

/-- Witness for C3 (amended): a static depth-1 call on the empty stack is
a no-op, and the log hook is a no-op. -/
theorem no_inspectors_hooks_witness :
    callHook extF stEmpty dataF callStaticF =
      (dataF, callStaticF,
        (InstructionResult.Continue, Gas.new callStaticF.gas_limit, [])) ∧
    logHook stEmpty dataF 5 [1] [2] = dataF :=
  ⟨(no_inspectors_hooks ℕ extF stEmpty
      ⟨rfl, rfl, rfl, rfl, rfl, rfl, rfl, rfl⟩).2.2.2.1 dataF callStaticF
      (Or.inl rfl),
   (no_inspectors_hooks ℕ extF stEmpty
      ⟨rfl, rfl, rfl, rfl, rfl, rfl, rfl, rfl⟩).2.2.1 dataF 5 [1] [2]⟩

/-- C4 (counterexample). The claim says the step hook always invokes
every configured inspector in declared order with no early exit. With a
fuzzer whose step flips `instruction_result` to `Revert` and a debugger
whose step leaves a mark, the debugger is skipped: the stack's step hook
differs from running every configured inspector in order. -/
theorem step_hook_early_exit_skips_later :
    (stepHook stStepF ipF dataF).2.db = 0 ∧
    (foldPresent
      ([stStepF.fuzzer, stStepF.debugger, stStepF.tracer, stStepF.coverage,
        stStepF.log_collector, stStepF.cheatcodes, stStepF.printer].map
          (Option.map (fun b : InspBehavior ℕ => b.step)))
      (ipF, dataF)).2.db = 1 ∧
    stepHook stStepF ipF dataF ≠
      foldPresent
        ([stStepF.fuzzer, stStepF.debugger, stStepF.tracer, stStepF.coverage,
          stStepF.log_collector, stStepF.cheatcodes, stStepF.printer].map
            (Option.map (fun b : InspBehavior ℕ => b.step)))
        (ipF, dataF) := by
  refine ⟨rfl, rfl, fun h => ?_⟩
  exact absurd (congrArg (fun x => x.2.db) h) (by decide)

/-- C4 (amended). The log and selfdestruct hooks always invoke every
configured inspector in declared order (side effects only, no early
exit); the initialize and step hooks invoke every configured inspector in
declared order provided no inspector moves the interpreter's
`instruction_result` — an inspector that does move it makes the stack
skip the remaining inspectors for that event. -/
theorem sideeffect_hooks_run_all_inspectors (DB : Type) :
    (∀ st : InspectorStack DB, st.in_inner_context = false →
      ∀ (data : EVMData DB) (address : Addr) (topics ldata : List ℕ),
      logHook st data address topics ldata =
        foldPresent
          ([st.tracer, st.log_collector, st.cheatcodes, st.printer].map
            (Option.map (fun (b : InspBehavior DB) (d : EVMData DB) =>
              b.log d address topics ldata))) data) ∧
    (∀ (σ : Type) (slots : List (Option (σ → σ))) (s : σ),
      selfdestructHook slots s = foldPresent slots s) ∧
    (∀ st : InspectorStack DB, st.in_inner_context = false →
      ∀ (ip : Interpreter) (data : EVMData DB),
      (∀ b, some b ∈ [st.debugger, st.coverage, st.tracer,
          st.log_collector, st.cheatcodes, st.printer] →
        ∀ s : Interpreter × EVMData DB,
          (b.init_interp s).1.instruction_result = s.1.instruction_result) →
      initInterp st ip data =
        foldPresent
          ([st.debugger, st.coverage, st.tracer, st.log_collector,
            st.cheatcodes, st.printer].map
              (Option.map (fun b : InspBehavior DB => b.init_interp)))
          (ip, data)) ∧
    (∀ st : InspectorStack DB, st.in_inner_context = false →
      ∀ (ip : Interpreter) (data : EVMData DB),
      (∀ b, some b ∈ [st.fuzzer, st.debugger, st.tracer, st.coverage,
          st.log_collector, st.cheatcodes, st.printer] →
        ∀ s : Interpreter × EVMData DB,
          (b.step s).1.instruction_result = s.1.instruction_result) →
      stepHook st ip data =
        foldPresent
          ([st.fuzzer, st.debugger, st.tracer, st.coverage,
            st.log_collector, st.cheatcodes, st.printer].map
              (Option.map (fun b : InspBehavior DB => b.step))) (ip, data)) :=
  ⟨fun st h data address topics ldata =>
      logHook_runs_all st h data address topics ldata,
   fun σ slots s => @selfdestructHook_runs_all σ slots s,
   fun st h ip data hpres => initInterp_runs_all st h ip data hpres,
   fun st h ip data hpres => stepHook_runs_all st h ip data hpres⟩

/-- Witness for C4 (amended): the log hook on a stack with only the
(passive) log collector applies the collector, and the step hook with a
result-preserving inspector applies it. -/
theorem sideeffect_hooks_run_all_inspectors_witness :
    logHook stLogF dataF 5 [1] [2] =
      foldPresent
        ([stLogF.tracer, stLogF.log_collector, stLogF.cheatcodes,
          stLogF.printer].map
            (Option.map (fun (b : InspBehavior ℕ) (d : EVMData ℕ) =>
              b.log d 5 [1] [2]))) dataF ∧
    stepHook stLogF ipF dataF =
      foldPresent
        ([stLogF.fuzzer, stLogF.debugger, stLogF.tracer, stLogF.coverage,
          stLogF.log_collector, stLogF.cheatcodes, stLogF.printer].map
            (Option.map (fun b : InspBehavior ℕ => b.step))) (ipF, dataF) := by
  constructor
  · exact (sideeffect_hooks_run_all_inspectors ℕ).1 stLogF rfl dataF 5 [1] [2]
  · refine (sideeffect_hooks_run_all_inspectors ℕ).2.2.2 stLogF rfl ipF dataF ?_
    intro b hb s
    simp only [stLogF, List.mem_cons, List.not_mem_nil, or_false,
      Option.some.injEq, reduceCtorEq, false_or] at hb
    subst hb
    rfl

/-- C5 (counterexample). The claim says the inner-context mechanism runs
for every call observed at depth 1 while `in_inner_context` is false. A
static call at depth 1 outside the inner context does not run it: the
hook answers the plain no-op `(Continue, gas limit, empty)` and leaves
the db untouched, while the mechanism at that same point would have
answered `Revert` and bumped the committed db. -/
theorem static_call_skips_inner_context :
    stEmpty.in_inner_context = false ∧
    dataF.journaled_state.depth = 1 ∧
    callHook extF stEmpty dataF callStaticF =
      (dataF, callStaticF,
        (InstructionResult.Continue, Gas.new 100, [])) ∧
    (innerContextCall extF dataF callStaticF).2.1 =
      InstructionResult.Revert ∧
    (innerContextCall extF dataF callStaticF).1.db = dataF.db + 1 :=
  ⟨rfl, rfl, rfl, rfl, rfl⟩

/-- C5 (amended). The inner-context mechanism (commit, nonce read,
synthesized environment with `basefee = 0`, `gas_limit = U256::MAX`,
`gas_price = 0` and the intercepted call's
caller/target/input/value/gas-limit/nonce, inner transact, state merge,
result translation) runs for an event observed at depth 1 while
`in_inner_context` is false exactly when no inspector answered a
non-`Continue` status and — for calls — the call is not static; it never
runs for any other event (in particular, while `in_inner_context` is set
the hook's result does not depend on the backend at all). -/
theorem inner_context_trigger (DB : Type) (X : ExtSemantics DB)
    (st : InspectorStack DB) :
    (∀ (data : EVMData DB) (call : CallInputs) (d' : EVMData DB)
        (c' : CallInputs),
      st.in_inner_context = false →
      callLoop st data call = ((d', c'), none) →
      c'.is_static = false → d'.journaled_state.depth = 1 →
      callHook X st data call =
        ((innerContextCall X d' c').1, c', (innerContextCall X d' c').2)) ∧
    (∀ (data : EVMData DB) (call : CallInputs) (d' : EVMData DB)
        (c' : CallInputs),
      st.in_inner_context = false →
      callLoop st data call = ((d', c'), none) →
      c'.is_static = true ∨ d'.journaled_state.depth ≠ 1 →
      callHook X st data call =
        (d', c', (InstructionResult.Continue, Gas.new c'.gas_limit, []))) ∧
    (∀ (data : EVMData DB) (call : CallInputs) (d' : EVMData DB)
        (c' : CallInputs) r,
      st.in_inner_context = false →
      callLoop st data call = ((d', c'), some r) →
      callHook X st data call = (d', c', r)) ∧
    (∀ (data : EVMData DB) (call : CallInputs),
      st.in_inner_context = true →
      ∀ X' : ExtSemantics DB, callHook X st data call = callHook X' st data call) ∧
    (∀ (data : EVMData DB) (call : CreateInputs) (d' : EVMData DB)
        (c' : CreateInputs),
      st.in_inner_context = false →
      createLoop st data call = ((d', c'), none) →
      d'.journaled_state.depth = 1 →
      createHook X st data call =
        ((innerContextCreate X d' c').1, c', (innerContextCreate X d' c').2)) ∧
    (∀ (env : Env) (call : CallInputs) (n : ℕ),
      (synthCallEnv env call n).block.basefee = 0 ∧
      (synthCallEnv env call n).block.gas_limit = U256_MAX ∧
      (synthCallEnv env call n).tx.gas_price = 0 ∧
      (synthCallEnv env call n).tx.caller = call.caller ∧
      (synthCallEnv env call n).tx.transact_to =
        TransactTo.call call.contract ∧
      (synthCallEnv env call n).tx.data = call.input ∧
      (synthCallEnv env call n).tx.value = call.value ∧
      (synthCallEnv env call n).tx.gas_limit = call.gas_limit ∧
      (synthCallEnv env call n).tx.nonce = some n) := by
  refine ⟨?_, ?_, ?_, ?_, ?_, ?_⟩
  · intro data call d' c' hi hloop hs hdep
    unfold callHook
    have hg : ¬(st.in_inner_context = true ∧
        data.journaled_state.depth = 0) := by
      intro hx; rw [hi] at hx; exact absurd hx.1 (by simp)
    rw [if_neg hg, hloop]
    have hm : ¬c'.is_static = true ∧ ¬st.in_inner_context = true ∧
        d'.journaled_state.depth = 1 := by
      refine ⟨?_, ?_, hdep⟩
      · rw [hs]; simp
      · rw [hi]; simp
    dsimp only
    rw [if_pos hm]
  · intro data call d' c' hi hloop hcase
    unfold callHook
    have hg : ¬(st.in_inner_context = true ∧
        data.journaled_state.depth = 0) := by
      intro hx; rw [hi] at hx; exact absurd hx.1 (by simp)
    rw [if_neg hg, hloop]
    have hm : ¬(¬c'.is_static = true ∧ ¬st.in_inner_context = true ∧
        d'.journaled_state.depth = 1) := by
      rcases hcase with h1 | h1
      · intro hx; rw [h1] at hx; exact hx.1 rfl
      · intro hx; exact h1 hx.2.2
    dsimp only
    rw [if_neg hm]
  · intro data call d' c' r hi hloop
    unfold callHook
    have hg : ¬(st.in_inner_context = true ∧
        data.journaled_state.depth = 0) := by
      intro hx; rw [hi] at hx; exact absurd hx.1 (by simp)
    rw [if_neg hg, hloop]
  · intro data call hi X'
    unfold callHook
    by_cases hg : st.in_inner_context = true ∧ data.journaled_state.depth = 0
    · rw [if_pos hg, if_pos hg]
    · rw [if_neg hg, if_neg hg]
      rcases hcl : callLoop st data call with ⟨⟨d', c'⟩, r⟩
      cases r with
      | some r0 => rfl
      | none =>
        have hm : ¬(¬c'.is_static = true ∧ ¬st.in_inner_context = true ∧
            d'.journaled_state.depth = 1) := by
          intro hx; rw [hi] at hx; exact hx.2.1 rfl
        dsimp only
        rw [if_neg hm, if_neg hm]
  · intro data call d' c' hi hloop hdep
    unfold createHook
    have hg : ¬(st.in_inner_context = true ∧
        data.journaled_state.depth = 0) := by
      intro hx; rw [hi] at hx; exact absurd hx.1 (by simp)
    rw [if_neg hg, hloop]
    have hm : ¬st.in_inner_context = true ∧
        d'.journaled_state.depth = 1 := by
      refine ⟨?_, hdep⟩
      rw [hi]; simp
    dsimp only
    rw [if_pos hm]
  · intro env call n
    exact ⟨rfl, rfl, rfl, rfl, rfl, rfl, rfl, rfl, rfl⟩

/-- Witness for C5 (amended): on the empty stack, a concrete non-static
depth-1 call triggers the mechanism. -/
theorem inner_context_trigger_witness :
    callHook extF stEmpty dataF callF =
      ((innerContextCall extF dataF callF).1, callF,
        (innerContextCall extF dataF callF).2) :=
  (inner_context_trigger ℕ extF stEmpty).1 dataF callF dataF callF
    rfl rfl rfl rfl

/-! ## Log collector (`crates/evm/evm/src/inspectors/logs.rs`)

ABI machinery (`patch_hh_console_selector`, Hardhat-console decoding,
`ConsoleFmt`/`abi_encode`, the `log(string)` signature hash) is external
and appears as the `ConsoleAbi` parameter. `InspectorStack::collect`
returns `log_collector.map(|l| l.logs).unwrap_or_default()` as the `logs`
field; the stack's log fan-out always reaches the collector (see the C4
theorem), so the collector's state after a transaction is obtained by
replaying, in order, the log and call events it observed. -/

/-- An emitted log (the fields `LogCollector` fills; the remaining alloy
`Log` fields are `None`/default via `default_log`). -/
structure Log where
  address : Addr
  topics : List ℕ
  data : List ℕ
  deriving Repr, DecidableEq

/-- `foundry_evm_core::constants::HARDHAT_CONSOLE_ADDRESS`. -/
def HARDHAT_CONSOLE_ADDRESS : Addr := 0x000000000000000000636F6e736F6c652e6c6f67

/-- The external console-ABI collaborators used by the collector. -/
structure ConsoleAbi where
  /-- `patch_hh_console_selector`. -/
  patch : List ℕ → List ℕ
  /-- `HardhatConsole::HardhatConsoleCalls::abi_decode`; an `Err` carries
  the abi-encoded revert payload. -/
  decode : List ℕ → Except (List ℕ) ℕ
  /-- `call.fmt(..)` followed by `abi_encode`. -/
  fmt_encode : ℕ → List ℕ
  /-- `Console::log::SIGNATURE_HASH`. -/
  log_sig : ℕ

/-- `convert_hh_log_to_event`: a DSTest `log(string)` event at the
default address. -/
def convert_hh_log_to_event (A : ConsoleAbi) (call : ℕ) : Log :=
  { address := 0, topics := [A.log_sig], data := A.fmt_encode call }

/-- The collector: the logs gathered so far (`LOG` opcodes and
Hardhat-style logs). -/
structure LogCollector where
  logs : List Log
  deriving Repr, DecidableEq

namespace LogCollector

/-- `LogCollector::log`: push the observed log. -/
def onLog (lc : LogCollector) (address : Addr) (topics ldata : List ℕ) :
    LogCollector :=
  { lc with logs := lc.logs ++ [Log.mk address topics ldata] }

/-- `LogCollector::hardhat_log`: patch the selector, decode; on success
push the converted event and continue, on failure revert with the
encoded error. -/
def hardhat_log (A : ConsoleAbi) (lc : LogCollector) (input : List ℕ) :
    LogCollector × (InstructionResult × List ℕ) :=
  let input := A.patch input
  match A.decode input with
  | .error err => (lc, (InstructionResult.Revert, err))
  | .ok decoded =>
    ({ lc with logs := lc.logs ++ [convert_hh_log_to_event A decoded] },
      (InstructionResult.Continue, []))

/-- `LogCollector::call`: intercept calls to the Hardhat console
pseudo-address; otherwise continue untouched. -/
def onCall (A : ConsoleAbi) (lc : LogCollector) (call : CallInputs) :
    LogCollector × (InstructionResult × Gas × List ℕ) :=
  let r := if call.contract = HARDHAT_CONSOLE_ADDRESS then
    hardhat_log A lc call.input
  else (lc, (InstructionResult.Continue, []))
  (r.1, (r.2.1, Gas.new call.gas_limit, r.2.2))

end LogCollector

/-- An event the stack forwards to the collector during a transaction. -/
inductive StackEvent where
  | logEv (address : Addr) (topics : List ℕ) (data : List ℕ)
  | callEv (c : CallInputs)
  deriving Repr, DecidableEq

/-- Replay the observed events through the collector, in order. -/
def runLogCollector (A : ConsoleAbi) (lc : LogCollector) :
    List StackEvent → LogCollector
  | [] => lc
  | .logEv a t d :: evs => runLogCollector A (lc.onLog a t d) evs
  | .callEv c :: evs => runLogCollector A (lc.onCall A c).1 evs

/-- The `logs` field of `InspectorStack::collect` after a transaction
that produced the given events (collector enabled, starting empty). -/
def collectLogs (A : ConsoleAbi) (evs : List StackEvent) : List Log :=
  (runLogCollector A { logs := [] } evs).logs

/-- The logs the claim predicts: exactly the `log()` callbacks, in
order. -/
def logsFromLogEvents : List StackEvent → List Log
  | [] => []
  | .logEv a t d :: evs =>
    { address := a, topics := t, data := d } :: logsFromLogEvents evs
  | .callEv _ :: evs => logsFromLogEvents evs

/-- The logs the code actually produces: the `log()` callbacks plus the
Hardhat-console events synthesized from intercepted `call()`s that
decode successfully, in order. -/
def logsFromEvents (A : ConsoleAbi) : List StackEvent → List Log
  | [] => []
  | .logEv a t d :: evs =>
    { address := a, topics := t, data := d } :: logsFromEvents A evs
  | .callEv c :: evs =>
    (if c.contract = HARDHAT_CONSOLE_ADDRESS then
      match A.decode (A.patch c.input) with
      | .ok decoded => [convert_hh_log_to_event A decoded]
      | .error _ => []
    else []) ++ logsFromEvents A evs

/-- A console ABI whose decoding always succeeds (as it does on any
well-formed `console.log` calldata). -/
def consoleAbiF : ConsoleAbi :=
  { patch := id, decode := fun _ => Except.ok 0, fmt_encode := fun _ => [7],
    log_sig := 99 }

/-- A call to the Hardhat console pseudo-address. -/
def consoleCallF : CallInputs :=
  { contract := HARDHAT_CONSOLE_ADDRESS, caller := 3, input := [1, 2],
    value := 0, gas_limit := 100, is_static := false }

/-- Replaying events appends exactly the code's produced logs. -/
theorem runLogCollector_logs (A : ConsoleAbi) (lc : LogCollector)
    (evs : List StackEvent) :
    (runLogCollector A lc evs).logs = lc.logs ++ logsFromEvents A evs := by
  induction evs generalizing lc with
  | nil => simp [runLogCollector, logsFromEvents]
  | cons e evs ih =>
    cases e with
    | logEv a t d =>
      simp [runLogCollector, logsFromEvents, LogCollector.onLog, ih]
    | callEv c =>
      by_cases hc : c.contract = HARDHAT_CONSOLE_ADDRESS
      · cases hd : A.decode (A.patch c.input) with
        | error err =>
          simp [runLogCollector, logsFromEvents, LogCollector.onCall,
            LogCollector.hardhat_log, hc, hd, ih]
        | ok decoded =>
          simp [runLogCollector, logsFromEvents, LogCollector.onCall,
            LogCollector.hardhat_log, hc, hd, ih]
      · simp [runLogCollector, logsFromEvents, LogCollector.onCall, hc, ih]

/-- C9 (counterexample). The claim says the collected logs equal exactly
the `log()` callbacks observed, with no log added from any other source.
A single intercepted `call()` to the Hardhat console pseudo-address with
decodable calldata produces a collected log although no `log()` callback
was observed. -/
theorem console_call_adds_log :
    collectLogs consoleAbiF [StackEvent.callEv consoleCallF] =
      [convert_hh_log_to_event consoleAbiF 0] ∧
    logsFromLogEvents [StackEvent.callEv consoleCallF] = [] ∧
    collectLogs consoleAbiF [StackEvent.callEv consoleCallF] ≠
      logsFromLogEvents [StackEvent.callEv consoleCallF] := by
  refine ⟨rfl, rfl, ?_⟩
  intro h
  exact absurd (congrArg List.length h) (by decide)

/-- C9 (amended). Collecting the stack's results once after a completed
transaction yields a logs list exactly equal to the in-order
concatenation of the `log()` callbacks observed and the Hardhat-console
events synthesized from intercepted `call()`s to the console
pseudo-address that decode successfully — nothing else added, nothing
observed missing. -/
theorem collect_logs_characterization (A : ConsoleAbi)
    (evs : List StackEvent) :
    collectLogs A evs = logsFromEvents A evs := by
  unfold collectLogs
  rw [runLogCollector_logs]
  rfl

/-! ## Invariant fuzz executor (`evm/src/invariant_fuzz.rs`)

The EVM executor (`Executor::call_raw_committing`, `Executor::call_raw`,
`Executor::is_success`) and ABI encoding are external and appear as the
`ExecutorModel` parameter. The per-invariant record map
(`invariant_doesnt_hold : BTreeMap<String, Option<InvariantFuzzError>>`)
is modelled by its lookup function; `BTreeMap::insert` is pointwise
update. A proptest campaign is the sequence of generated input
sequences, each executed by the closure of `invariant_fuzz` and followed
by the reset `executor.db = clean_db.clone()`. -/

/-- `RawCallResult`, restricted to the fields the executor loop reads. -/
structure RawCallResult where
  reverted : Bool
  gas : ℕ
  stipend : ℕ
  result : List ℕ
  state_changeset : Option ℕ
  deriving Repr, DecidableEq

/-- `FuzzCase`: the recorded calldata and gas of a successful call. -/
structure FuzzCase where
  calldata : List ℕ
  gas : ℕ
  stipend : ℕ
  deriving Repr, DecidableEq

/-- `InvariantFuzzError`: what distinguishes one recorded violation from
another — the invariant's name, the raw revert payload of the offending
check (from which the reason string is decoded), and the reproducing
input sequence. -/
structure InvariantFuzzError where
  func_name : String
  result : List ℕ
  inputs : List (Addr × Addr × List ℕ)
  deriving Repr, DecidableEq

/-- The external executor collaborator. -/
structure ExecutorModel (DB : Type) where
  call_raw_committing : DB → Addr → Addr → List ℕ → RawCallResult × DB
  call_raw : DB → Addr → Addr → List ℕ → RawCallResult
  is_success : DB → Addr → Bool → ℕ → Bool
  encode_input : String → List ℕ

/-- `invariant_doesnt_hold`, as its lookup function. -/
def InvariantMap := String → Option (Option InvariantFuzzError)

/-- `BTreeMap::insert`: later inserts replace earlier values. -/
def mapInsert (m : InvariantMap) (k : String)
    (v : Option InvariantFuzzError) : InvariantMap :=
  fun q => if q = k then some v else m q

/-- `all_invars`: every invariant name mapped to `None`. -/
def initialInvariantMap (invariants : List String) : InvariantMap :=
  invariants.foldl (fun m f => mapInsert m f none) (fun _ => none)

/-- The invariant-checking loop run after a successful sequence call:
invoke each invariant as a read call from `self.sender`; on a revert or
an `is_success` failure record the violation for that invariant
(`BTreeMap::insert`) and signal `break 'all`. -/
def checkInvariants {DB : Type} (E : ExecutorModel DB)
    (sender invariant_address : Addr) (invariants : List String)
    (inputs : List (Addr × Addr × List ℕ)) (db : DB) (m : InvariantMap) :
    InvariantMap × Bool :=
  match invariants with
  | [] => (m, false)
  | f :: rest =>
    let r := E.call_raw db sender invariant_address (E.encode_input f)
    if r.reverted then
      (mapInsert m f (some ⟨f, r.result, inputs⟩), true)
    else if ¬ E.is_success db invariant_address r.reverted
        (r.state_changeset.getD 0) then
      (mapInsert m f (some ⟨f, r.result, inputs⟩), true)
    else
      checkInvariants E sender invariant_address rest inputs db m

/-- The first invariant the checking loop would flag, together with the
violation it would record — notably independent of any previous
record. -/
def firstViolation {DB : Type} (E : ExecutorModel DB)
    (sender invariant_address : Addr) (invariants : List String)
    (inputs : List (Addr × Addr × List ℕ)) (db : DB) :
    Option (String × InvariantFuzzError) :=
  match invariants with
  | [] => none
  | f :: rest =>
    let r := E.call_raw db sender invariant_address (E.encode_input f)
    if r.reverted then some (f, ⟨f, r.result, inputs⟩)
    else if ¬ E.is_success db invariant_address r.reverted
        (r.state_changeset.getD 0) then
      some (f, ⟨f, r.result, inputs⟩)
    else firstViolation E sender invariant_address rest inputs db

/-- The `'all` loop body of `invariant_fuzz`: execute the sequence one
call at a time; a reverted call is skipped ("call failed, continue on");
after a successful call run the invariant checks, aborting everything on
a recorded violation, otherwise record the fuzz case and continue. -/
def execSequence {DB : Type} (E : ExecutorModel DB)
    (self_sender invariant_address : Addr) (invariants : List String)
    (inputs : List (Addr × Addr × List ℕ)) :
    List (Addr × Addr × List ℕ) → DB → List FuzzCase → InvariantMap →
      DB × List FuzzCase × InvariantMap
  | [], db, cases, m => (db, cases, m)
  | (sender, address, calldata) :: rest, db, cases, m =>
    let rc := E.call_raw_committing db sender address calldata
    if ¬ rc.1.reverted then
      let cm := checkInvariants E self_sender invariant_address invariants
        inputs rc.2 m
      if cm.2 then (rc.2, cases, cm.1)
      else
        execSequence E self_sender invariant_address invariants inputs rest
          rc.2 (cases ++ [⟨calldata, rc.1.gas, rc.1.stipend⟩]) cm.1
    else
      execSequence E self_sender invariant_address invariants inputs rest
        rc.2 cases m

/-- One proptest run: execute the generated sequence, then reset the db
to the pre-campaign clone. -/
def runOnce {DB : Type} (E : ExecutorModel DB) (clean_db : DB)
    (self_sender invariant_address : Addr) (invariants : List String)
    (inputs : List (Addr × Addr × List ℕ)) (db : DB) (cases : List FuzzCase)
    (m : InvariantMap) : DB × List FuzzCase × InvariantMap :=
  let r := execSequence E self_sender invariant_address invariants inputs
    inputs db cases m
  (clean_db, r.2.1, r.2.2)

/-- A whole fuzz campaign over the generated sequences, starting from the
clean db clone with every invariant mapped to `None`. -/
def runCampaign {DB : Type} (E : ExecutorModel DB) (clean_db : DB)
    (self_sender invariant_address : Addr) (invariants : List String)
    (seqs : List (List (Addr × Addr × List ℕ))) :
    DB × List FuzzCase × InvariantMap :=
  seqs.foldl
    (fun st inputs =>
      runOnce E clean_db self_sender invariant_address invariants inputs
        st.1 st.2.1 st.2.2)
    (clean_db, [], initialInvariantMap invariants)

/-- An executor whose sequence calls always succeed and whose invariant
checks always revert with payload `[5]`. -/
def execCE : ExecutorModel ℕ :=
  { call_raw_committing := fun db _ _ _ =>
      ({ reverted := false, gas := 0, stipend := 0, result := [],
         state_changeset := some 0 }, db),
    call_raw := fun _ _ _ _ =>
      { reverted := true, gas := 0, stipend := 0, result := [5],
        state_changeset := some 0 },
    is_success := fun _ _ _ _ => true,
    encode_input := fun _ => [] }

/-- An executor whose sequence call reverts exactly on target address 2
and whose invariant checks always pass. -/
def execCE2 : ExecutorModel ℕ :=
  { call_raw_committing := fun db _ address _ =>
      ({ reverted := decide (address = 2), gas := 0, stipend := 0,
         result := [], state_changeset := some 0 }, db + 1),
    call_raw := fun _ _ _ _ =>
      { reverted := false, gas := 0, stipend := 0, result := [],
        state_changeset := some 0 },
    is_success := fun _ _ _ _ => true,
    encode_input := fun _ => [] }

/-- C1 (counterexample). The claim says that once a violation is
recorded for an invariant name, later violations of the same invariant
never replace it. With an executor whose invariant check always reverts,
a campaign of two runs records the first run's sequence, and the second
run's `BTreeMap::insert` replaces it with the second run's sequence. -/
theorem invariant_violation_record_replaced :
    (runCampaign execCE 0 9 9 ["inv"] [[(1, 2, [10])]]).2.2 "inv" =
      some (some ⟨"inv", [5], [(1, 2, [10])]⟩) ∧
    (runCampaign execCE 0 9 9 ["inv"]
        [[(1, 2, [10])], [(1, 2, [20])]]).2.2 "inv" =
      some (some ⟨"inv", [5], [(1, 2, [20])]⟩) ∧
    (⟨"inv", [5], [(1, 2, [10])]⟩ : InvariantFuzzError) ≠
      ⟨"inv", [5], [(1, 2, [20])]⟩ := by
  refine ⟨?_, ?_, by decide⟩ <;> rfl

/-- C1 (amended). Per invariant name the executor retains the violation
recorded by the most recent violating run: recording a violation
overwrites whatever was stored for that name, the recorded value is
computed from the current run alone (independent of any previous
record), and entries of other invariant names are untouched. -/
theorem invariant_violation_last_wins (DB : Type) (E : ExecutorModel DB) :
    (∀ (m : InvariantMap) (k : String) (v : InvariantFuzzError),
      mapInsert m k (some v) k = some (some v)) ∧
    (∀ (sender invariant_address : Addr) (invariants : List String)
        (inputs : List (Addr × Addr × List ℕ)) (db : DB) (m : InvariantMap),
      checkInvariants E sender invariant_address invariants inputs db m =
        match firstViolation E sender invariant_address invariants inputs db
          with
        | some fv => (mapInsert m fv.1 (some fv.2), true)
        | none => (m, false)) ∧
    (∀ (m : InvariantMap) (k f : String) (v : Option InvariantFuzzError),
      k ≠ f → mapInsert m f v k = m k) := by
  refine ⟨?_, ?_, ?_⟩
  · intro m k v
    simp [mapInsert]
  · intro sender ia invariants inputs db m
    induction invariants with
    | nil => rfl
    | cons f rest ih =>
      unfold checkInvariants firstViolation
      by_cases hr : (E.call_raw db sender ia (E.encode_input f)).reverted = true
      · simp [hr]
      · rw [Bool.not_eq_true] at hr
        by_cases hs : E.is_success db ia false
            ((E.call_raw db sender ia (E.encode_input f)).state_changeset.getD
              0) = true
        · simp [hr, hs, ih]
        · rw [Bool.not_eq_true] at hs
          simp [hr, hs]
  · intro m k f v hk
    simp [mapInsert, hk]

/-- Witness for C1 (amended): a concrete overwrite and a concrete
untouched entry. -/
theorem invariant_violation_last_wins_witness :
    mapInsert (fun _ => none) "inv"
        (some ⟨"inv", [5], []⟩) "inv" = some (some ⟨"inv", [5], []⟩) ∧
    mapInsert (fun _ => none) "inv" none "other" = none :=
  ⟨(invariant_violation_last_wins ℕ execCE).1 (fun _ => none) "inv"
      ⟨"inv", [5], []⟩,
   (invariant_violation_last_wins ℕ execCE).2.2 (fun _ => none) "other"
      "inv" none (by decide)⟩

/-- C2 (counterexample). The claim says a sequence stops early at the
first reverted call, with no later element executed. With an executor
whose call to target 2 reverts and whose call to target 3 succeeds, the
run over `[(1,2,[10]), (1,3,[20])]` still executes the second element
and records its fuzz case. -/
theorem reverted_call_does_not_stop_sequence :
    (execCE2.call_raw_committing 0 1 2 [10]).1.reverted = true ∧
    (runOnce execCE2 0 9 9 [] [(1, 2, [10]), (1, 3, [20])] 0 []
        (fun _ => none)).2.1 = [⟨[20], 0, 0⟩] := by
  exact ⟨rfl, rfl⟩

/-- C2 (amended). A reverted sequence call is skipped — no invariant
check runs for it and no fuzz case is recorded — and execution continues
with the next element; the run aborts the rest of the sequence exactly
when an invariant violation is recorded after a successful call. -/
theorem sequence_execution_characterization (DB : Type)
    (E : ExecutorModel DB) :
    (∀ (ss ia : Addr) (invariants : List String)
        (inputs : List (Addr × Addr × List ℕ)) (sender address : Addr)
        (calldata : List ℕ) (rest : List (Addr × Addr × List ℕ)) (db : DB)
        (cases : List FuzzCase) (m : InvariantMap),
      (E.call_raw_committing db sender address calldata).1.reverted = true →
      execSequence E ss ia invariants inputs
          ((sender, address, calldata) :: rest) db cases m =
        execSequence E ss ia invariants inputs rest
          (E.call_raw_committing db sender address calldata).2 cases m) ∧
    (∀ (ss ia : Addr) (invariants : List String)
        (inputs : List (Addr × Addr × List ℕ)) (sender address : Addr)
        (calldata : List ℕ) (rest : List (Addr × Addr × List ℕ)) (db : DB)
        (cases : List FuzzCase) (m : InvariantMap),
      (E.call_raw_committing db sender address calldata).1.reverted = false →
      (checkInvariants E ss ia invariants inputs
        (E.call_raw_committing db sender address calldata).2 m).2 = true →
      execSequence E ss ia invariants inputs
          ((sender, address, calldata) :: rest) db cases m =
        ((E.call_raw_committing db sender address calldata).2, cases,
          (checkInvariants E ss ia invariants inputs
            (E.call_raw_committing db sender address calldata).2 m).1)) := by
  constructor
  · intro ss ia invariants inputs sender address calldata rest db cases m hr
    conv_lhs => rw [execSequence]
    simp [hr]
  · intro ss ia invariants inputs sender address calldata rest db cases m
      hr hv
    conv_lhs => rw [execSequence]
    simp [hr, hv]

/-- Witness for C2 (amended): both behaviours at concrete inputs. -/
theorem sequence_execution_characterization_witness :
    execSequence execCE2 9 9 [] [(1, 2, [10])] [(1, 2, [10])] 0 []
        (fun _ => none) =
      execSequence execCE2 9 9 [] [(1, 2, [10])] []
        (execCE2.call_raw_committing 0 1 2 [10]).2 [] (fun _ => none) ∧
    execSequence execCE 9 9 ["inv"] [(1, 3, [20])] [(1, 3, [20])] 0 []
        (fun _ => none) =
      ((execCE.call_raw_committing 0 1 3 [20]).2, [],
        (checkInvariants execCE 9 9 ["inv"] [(1, 3, [20])]
          (execCE.call_raw_committing 0 1 3 [20]).2 (fun _ => none)).1) :=
  ⟨(sequence_execution_characterization ℕ execCE2).1 9 9 [] [(1, 2, [10])]
      1 2 [10] [] 0 [] (fun _ => none) rfl,
   (sequence_execution_characterization ℕ execCE).2 9 9 ["inv"]
      [(1, 3, [20])] 1 3 [20] [] 0 [] (fun _ => none) rfl rfl⟩
